import Mathlib

set_option autoImplicit false

/-!
Verification of the conversation/session management and retrieval pipeline of
the vercel-supabase-auth-server repository: the conversation-history trimming
module (utils/conversationHistory.ts), the embedding cache
(utils/embedding.ts), the Qdrant retrieval service (services/qdrant.ts) and
the chat orchestration in controllers/chatController.ts, shallowly embedded
as executable Lean definitions.
-/

/-!
## JavaScript value model

Timestamps in stored conversation messages are dynamically typed: the
`ConversationMessage` interface declares `timestamp?: number`, but the chat
controller stores `new Date().toISOString()` strings.  We model the values
that actually flow through the code: numbers and strings.
-/

/-- A JavaScript value as it occurs in the `timestamp` field: either a number
or a string. -/
inductive JsValue where
  | num (n : Int)
  | str (s : String)
deriving DecidableEq, Repr

/-- Fold the characters of a digit string into a natural number. -/
def digitsToNat (l : List Char) : Nat :=
  l.foldl (fun acc c => acc * 10 + (c.toNat - 48)) 0

/-- JavaScript `String.prototype.trim` on the character list of a string:
strip whitespace from both ends. -/
def jsTrim (s : String) : List Char :=
  ((s.data.dropWhile fun c => c.isWhitespace).reverse.dropWhile
    fun c => c.isWhitespace).reverse

/-- JavaScript `ToNumber` on strings, restricted to optionally signed decimal
integer literals (the only numeric string shapes relevant to this codebase).
The empty or all-whitespace string converts to `0`; any other string that is
not an optionally signed digit sequence (in particular every ISO-8601 date
string produced by `Date.prototype.toISOString`, which contains `-` and `T`
characters) converts to NaN, modelled as `none`. -/
def jsStrToNumber (s : String) : Option Int :=
  let t := jsTrim s
  if t.length = 0 then some 0
  else if t.all (fun c => c.isDigit) then some (digitsToNat t)
  else if t.head? = some (Char.ofNat 45) ∧ t.tail ≠ [] ∧
      t.tail.all (fun c => c.isDigit) then
    some (-(digitsToNat t.tail))
  else if t.head? = some (Char.ofNat 43) ∧ t.tail ≠ [] ∧
      t.tail.all (fun c => c.isDigit) then
    some (digitsToNat t.tail)
  else none

/-- JavaScript falsiness of an optional `timestamp` value: `undefined`, the
number `0` and the empty string are falsy; every other number or string is
truthy. -/
def jsFalsy : Option JsValue → Bool
  | none => true
  | some (.num n) => n = 0
  | some (.str s) => s = ""

/-- JavaScript `v > c` where `c` is a number: a numeric `v` compares
numerically; a string `v` is converted with `ToNumber` first and a NaN
conversion makes the comparison false. -/
def jsGtNum (v : JsValue) (c : Int) : Bool :=
  match v with
  | .num n => c < n
  | .str s =>
    match jsStrToNumber s with
    | some n => c < n
    | none => false

/-!
## utils/conversationHistory.ts
-/

/-- `ConversationMessage` from utils/conversationHistory.ts.  The interface
declares `timestamp?: number`; the values actually stored by the chat
controller are ISO strings, so the field is modelled as an optional
`JsValue`. -/
structure ConversationMessage where
  role : String
  content : String
  timestamp : Option JsValue
deriving DecidableEq, Repr

/-- `MAX_HISTORY_TOKENS` from utils/conversationHistory.ts. -/
def MAX_HISTORY_TOKENS : Nat := 8000

/-- `CHARS_PER_TOKEN` from utils/conversationHistory.ts. -/
def CHARS_PER_TOKEN : Nat := 4

/-- `MAX_HISTORY_CHARS = MAX_HISTORY_TOKENS * CHARS_PER_TOKEN` (= 32000). -/
def MAX_HISTORY_CHARS : Nat := MAX_HISTORY_TOKENS * CHARS_PER_TOKEN

/-- The loop body of `trimConversationHistory`: walk the reversed history
(most recent first), accumulate `message.content.length + message.role.length`
and break at the first message whose addition would exceed
`MAX_HISTORY_CHARS`; accepted messages are unshifted onto the accumulator so
the result stays chronological. -/
def trimCHgo : List ConversationMessage → Nat → List ConversationMessage →
    List ConversationMessage
  | [], _, trimmed => trimmed
  | message :: rest, totalChars, trimmed =>
    let messageChars := message.content.length + message.role.length
    if MAX_HISTORY_CHARS < totalChars + messageChars then trimmed
    else trimCHgo rest (totalChars + messageChars) (message :: trimmed)

/-- `trimConversationHistory` from utils/conversationHistory.ts. -/
def trimConversationHistory (history : List ConversationMessage) :
    List ConversationMessage :=
  if history.length = 0 then [] else trimCHgo history.reverse 0 []

/-- `trimByAge` from utils/conversationHistory.ts, with the implicit
`Date.now()` passed explicitly as `now` (milliseconds).  Messages with a falsy
timestamp are kept; otherwise the message is kept when
`msg.timestamp > cutoffTime` under JavaScript comparison semantics. -/
def trimByAge (history : List ConversationMessage) (hoursToKeep : Int)
    (now : Int) : List ConversationMessage :=
  let cutoffTime := now - hoursToKeep * 60 * 60 * 1000
  history.filter fun msg =>
    if jsFalsy msg.timestamp then true
    else
      match msg.timestamp with
      | none => true
      | some v => jsGtNum v cutoffTime

/-- `trimToLastN` from utils/conversationHistory.ts
(`history.slice(-count)` after the length guard; JavaScript `slice(-0)`
is `slice(0)`, the whole array). -/
def trimToLastN (history : List ConversationMessage) (count : Nat) :
    List ConversationMessage :=
  if history.length ≤ count then history
  else if count = 0 then history
  else history.drop (history.length - count)

/-- `smartTrimConversationHistory` from utils/conversationHistory.ts:
age filter, then count cap, then character-budget cap. -/
def smartTrimConversationHistory (history : List ConversationMessage)
    (maxMessages : Nat) (hoursToKeep : Int) (now : Int) :
    List ConversationMessage :=
  trimConversationHistory (trimToLastN (trimByAge history hoursToKeep now) maxMessages)

/-- `estimateTokens` from utils/conversationHistory.ts:
`Math.ceil(text.length / 4)`. -/
def estimateTokens (text : String) : Nat :=
  (text.length + CHARS_PER_TOKEN - 1) / CHARS_PER_TOKEN

/-- `shouldCleanupHistory` from utils/conversationHistory.ts: total content
characters exceed 80% of `MAX_HISTORY_CHARS` (= 25600). -/
def shouldCleanupHistory (history : List ConversationMessage) : Bool :=
  let totalChars := history.foldl (fun sum msg => sum + msg.content.length) 0
  MAX_HISTORY_CHARS * 4 / 5 < totalChars

/-- Character cost of one message as accumulated by
`trimConversationHistory`. -/
def msgChars (m : ConversationMessage) : Nat :=
  m.content.length + m.role.length

/-- Total character cost of a transcript under the accounting of
`trimConversationHistory`. -/
def charSum (l : List ConversationMessage) : Nat :=
  (l.map msgChars).sum

/-!
## utils/embedding.ts — EmbeddingCache

JavaScript `Map` iterates in insertion order; `set` of an existing key
updates the value in place keeping the key position, `set` of a new key
appends, and `keys().next().value` is the first (oldest-inserted) key.  The
map is modelled as an association list in insertion order.  Embedding
vectors are `number[]` whose numeric contents the cache never inspects; they
are modelled as `List Int`.
-/

/-- `CachedEmbedding` from utils/embedding.ts. -/
structure CachedEmbedding where
  text : String
  embedding : List Int
  timestamp : Int
deriving DecidableEq, Repr

/-- JavaScript `ToInt32`: reduce an integer into `[-2^31, 2^31)`. -/
def toInt32 (n : Int) : Int :=
  let m := ((n % 4294967296) + 4294967296) % 4294967296
  if m < 2147483648 then m else m - 4294967296

/-- The hash loop of `EmbeddingCache.getKey`:
`hash = (hash << 5) - hash + charCode; hash = hash & hash` per character,
starting from 0.  `<< 5` and `& hash` both coerce to 32-bit signed integers;
the intermediate sum is exact double arithmetic.  Characters are taken as
UTF-16 code units (`charCodeAt`), which coincides with the code point for the
ASCII strings this code handles. -/
def jsHashFold (text : String) : Int :=
  text.data.foldl (fun h c => toInt32 (toInt32 (h * 32) - h + (c.toNat : Int))) 0

/-- `EmbeddingCache.getKey` from utils/embedding.ts:
`emb_${Math.abs(hash)}_${text.length}`. -/
def EmbeddingCache.getKey (text : String) : String :=
  "emb_" ++ toString (jsHashFold text).natAbs ++ "_" ++ toString text.length

/-- `Map.prototype.get`: first entry with the given key. -/
def mapFind (entries : List (String × CachedEmbedding)) (k : String) :
    Option CachedEmbedding :=
  match entries with
  | [] => none
  | e :: rest => if e.1 = k then some e.2 else mapFind rest k

/-- `Map.prototype.delete`: remove the first entry with the given key. -/
def mapDelete (entries : List (String × CachedEmbedding)) (k : String) :
    List (String × CachedEmbedding) :=
  match entries with
  | [] => []
  | e :: rest => if e.1 = k then rest else e :: mapDelete rest k

/-- `Map.prototype.set`: update in place if the key exists, else append. -/
def mapSet (entries : List (String × CachedEmbedding)) (k : String)
    (v : CachedEmbedding) : List (String × CachedEmbedding) :=
  match entries with
  | [] => [(k, v)]
  | e :: rest => if e.1 = k then (k, v) :: rest else e :: mapSet rest k v

/-- The `EmbeddingCache` class state: the backing `Map` plus the `maxSize`
and `ttlMs` configuration fields. -/
structure EmbeddingCache where
  entries : List (String × CachedEmbedding)
  maxSize : Nat
  ttlMs : Int
deriving DecidableEq, Repr

/-- A freshly constructed `EmbeddingCache` (constructor defaults are
`maxSize = 1000`, `ttlMs = 24h`). -/
def EmbeddingCache.empty (maxSize : Nat) (ttlMs : Int) : EmbeddingCache :=
  ⟨[], maxSize, ttlMs⟩

/-- `EmbeddingCache.get` from utils/embedding.ts, with `Date.now()` passed as
`now`.  Returns the looked-up embedding (`none` for a miss) and the updated
cache: an expired entry is purged as a side effect of the lookup. -/
def EmbeddingCache.get (cache : EmbeddingCache) (text : String) (now : Int) :
    Option (List Int) × EmbeddingCache :=
  let key := EmbeddingCache.getKey text
  match mapFind cache.entries key with
  | none => (none, cache)
  | some cached =>
    if cache.ttlMs < now - cached.timestamp then
      (none, { cache with entries := mapDelete cache.entries key })
    else
      (some cached.embedding, cache)

/-- `EmbeddingCache.set` from utils/embedding.ts, with `Date.now()` passed as
`now`.  If the map is at or beyond `maxSize`, the first (oldest-inserted) key
is deleted — unconditionally, before the new key is computed — provided that
first key is truthy (a nonempty string); then the entry is stored. -/
def EmbeddingCache.set (cache : EmbeddingCache) (text : String)
    (embedding : List Int) (now : Int) : EmbeddingCache :=
  let entries1 :=
    if cache.maxSize ≤ cache.entries.length then
      match cache.entries.head? with
      | some e => if e.1 ≠ "" then mapDelete cache.entries e.1 else cache.entries
      | none => cache.entries
    else cache.entries
  let key := EmbeddingCache.getKey text
  { cache with entries := mapSet entries1 key ⟨text, embedding, now⟩ }

/-- `EmbeddingCache.clear` from utils/embedding.ts. -/
def EmbeddingCache.clearAll (cache : EmbeddingCache) : EmbeddingCache :=
  { cache with entries := [] }

/-- One public cache operation, for stating invariants over arbitrary
operation sequences. -/
inductive CacheOp where
  | get (text : String) (now : Int)
  | set (text : String) (embedding : List Int) (now : Int)
  | clear
deriving DecidableEq, Repr

/-- Apply one cache operation. -/
def applyOp (cache : EmbeddingCache) : CacheOp → EmbeddingCache
  | .get t now => (cache.get t now).2
  | .set t e now => cache.set t e now
  | .clear => cache.clearAll

/-- Apply a sequence of cache operations, oldest first. -/
def applyOps (cache : EmbeddingCache) (ops : List CacheOp) : EmbeddingCache :=
  ops.foldl applyOp cache

/-!
## services/qdrant.ts — retrieval path

`QdrantService.search` embeds the query by calling
`this.embeddingService.embed(query)` directly and passes the result to the
vector-store client.  The embedding backend and the vector store are external
collaborators, modelled as function parameters; a `RetrievalState` threads
the global embedding cache and a count of embedding-backend calls so that
cache usage (or its absence) is observable in theorems.
-/

/-- A Qdrant point payload: the optional `text` field the mapping reads, plus
the remaining metadata fields. -/
structure QdrantPayload where
  text : Option String
  fields : List (String × String)
deriving DecidableEq, Repr

/-- A raw scored point returned by the Qdrant client.  Scores are floats the
code never computes with; they are modelled as `Int`. -/
structure ScoredPoint where
  id : String
  score : Int
  payload : QdrantPayload
deriving DecidableEq, Repr

/-- `SearchResult` from services/qdrant.ts. -/
structure SearchResult where
  id : String
  score : Int
  text : String
  metadata : QdrantPayload
deriving DecidableEq, Repr

/-- A Qdrant filter: a `must` list of `{key, match: {value}}` clauses. -/
structure QdrantFilter where
  must : List (String × String)
deriving DecidableEq, Repr

/-- Threaded observation state for the retrieval path: the global embedding
cache and the number of embedding-backend calls made so far. -/
structure RetrievalState where
  cache : EmbeddingCache
  embedCalls : Nat
deriving DecidableEq, Repr

/-- `QdrantService.search` from services/qdrant.ts: embed the query with a
direct `embeddingService.embed` call (one backend call, no cache lookup, no
normalization, no cache store), search the collection with the given filter,
and map raw hits to `SearchResult` (`text` is `payload?.text || ""`, the
metadata is the whole payload). -/
def qdrantSearch (embedBackend : String → List Int)
    (store : List Int → Nat → Option QdrantFilter → List ScoredPoint)
    (query : String) (limit : Nat) (filter : Option QdrantFilter)
    (st : RetrievalState) : List SearchResult × RetrievalState :=
  let queryEmbedding := embedBackend query
  let results := store queryEmbedding limit filter
  (results.map fun r => ⟨r.id, r.score, r.payload.text.getD "", r.payload⟩,
   { st with embedCalls := st.embedCalls + 1 })

/-- `QdrantService.searchByUser` from services/qdrant.ts: `search` with the
filter `{must: [{key: "user_id", match: {value: userId}}]}`. -/
def searchByUser (embedBackend : String → List Int)
    (store : List Int → Nat → Option QdrantFilter → List ScoredPoint)
    (query : String) (userId : String) (limit : Nat)
    (st : RetrievalState) : List SearchResult × RetrievalState :=
  qdrantSearch embedBackend store query limit
    (some ⟨[("user_id", userId)]⟩) st

/-!
## middleware/rateLimiting.ts — input validation
-/

/-- `ValidationError` from middleware/rateLimiting.ts. -/
structure ValidationError where
  field : String
  message : String
deriving DecidableEq, Repr

/-- `validateMessage` from middleware/rateLimiting.ts.  The modelled input is
always a string, so the `typeof` guard never fires. -/
def validateMessage (message : String) : List ValidationError :=
  (if (jsTrim message).length = 0 then
    [⟨"message", "message cannot be empty"⟩]
  else []) ++
  (if 10000 < message.length then
    [⟨"message",
      "message too long (max 10000 chars, got " ++ toString message.length ++ ")"⟩]
  else [])

/-- `validateContextArray` from middleware/rateLimiting.ts.  A request whose
body omits `context` reaches this function with `undefined`, which fails the
`Array.isArray` guard — modelled by the `none` case.  Items of the modelled
array are strings, so the per-item `typeof` guard never fires. -/
def validateContextArray (context : Option (List String)) :
    List ValidationError :=
  match context with
  | none => [⟨"context", "context must be an array"⟩]
  | some ctx =>
    (if 10 < ctx.length then
      [⟨"context",
        "context array too large (max 10 items, got " ++ toString ctx.length ++ ")"⟩]
    else []) ++
    (ctx.enum.map fun p =>
      if 5000 < p.2.length then
        [(⟨"context[" ++ toString p.1 ++ "]",
          "context item too large (max 5000 chars, got " ++ toString p.2.length ++ ")"⟩ : ValidationError)]
      else []).flatten

/-!
## controllers/chatController.ts — whole-response chat
-/

/-- The per-user profile fields the chat flow reads, from the `user_details`
row (`preferences`, `personal_info`, `conversation_history`).  The
string-keyed JSON maps are modelled as association lists. -/
structure UserDetail where
  preferences : List (String × String)
  personalInfo : List (String × String)
  conversationHistory : List ConversationMessage
deriving DecidableEq, Repr

/-- `buildSystemPrompt` from controllers/chatController.ts. -/
def buildSystemPrompt (detail : UserDetail) : String :=
  "You are a helpful AI assistant personalized for this user.\n\n" ++
  (if detail.personalInfo ≠ [] then
    "User Information:\n" ++
    String.join (detail.personalInfo.map fun kv => "- " ++ kv.1 ++ ": " ++ kv.2 ++ "\n") ++
    "\n"
  else "") ++
  (if detail.preferences ≠ [] then
    "User Preferences:\n" ++
    String.join (detail.preferences.map fun kv => "- " ++ kv.1 ++ ": " ++ kv.2 ++ "\n") ++
    "\n"
  else "")

/-- JavaScript `array.slice(-n)`: the last `n` elements (the whole array
when it is no longer than `n`, and also for `n = 0` since `slice(-0)` is
`slice(0)`). -/
def sliceLast (n : Nat) (l : List ConversationMessage) :
    List ConversationMessage :=
  if l.length ≤ n then l
  else if n = 0 then l
  else l.drop (l.length - n)

/-- The proactive history-cleanup step shared by `chat` and `chatStream`:
`smartTrimConversationHistory` (with its defaults `maxMessages = 20`,
`hoursToKeep = 24`) is applied only when `shouldCleanupHistory` holds. -/
def conditionHistory (history : List ConversationMessage) (now : Int) :
    List ConversationMessage :=
  if shouldCleanupHistory history then
    smartTrimConversationHistory history 20 24 now
  else history

/-- Outcome of one `chat` request: a 400 validation response, a 500 error
response, or a 200 response together with the prompt that was sent to the
LLM and the transcript written back to the profile row. -/
inductive ChatResult where
  | validationFailed (errors : List ValidationError)
  | serverError (msg : String)
  | success (response : String) (prompt : List ConversationMessage)
      (persisted : List ConversationMessage)
deriving DecidableEq, Repr

/-- The transcript written by the request, if any. -/
def ChatResult.persistedHistory : ChatResult → Option (List ConversationMessage)
  | .success _ _ p => some p
  | _ => none

/-- `chat` from controllers/chatController.ts (debug mode off).  External
effects are passed as values: `retrieval` is the outcome of
`qdrant.searchByUser(message, user.id, retrieve_limit)` (`Except.error` when
Qdrant throws), `llm` the outcome of `llmService.chat(messages)`, `now` is
`Date.now()` and `iso` the `new Date().toISOString()` string stamped on the
two new turns.  An omitted request-body `context` is `none`. -/
def chat (detail : UserDetail) (message : String)
    (context : Option (List String)) (autoRetrieve : Bool)
    (retrieval : Except String (List SearchResult))
    (llm : Except String String) (now : Int) (iso : String) : ChatResult :=
  let messageErrors := validateMessage message
  if messageErrors ≠ [] then .validationFailed messageErrors
  else
    let contextErrors := validateContextArray context
    if contextErrors ≠ [] then .validationFailed contextErrors
    else
      let systemPrompt := buildSystemPrompt detail
      let history := conditionHistory detail.conversationHistory now
      let recentHistory := sliceLast 10 history
      let retrievedDocs : List String :=
        if autoRetrieve then
          match retrieval with
          | .ok results => results.map fun r => r.text
          | .error _ => []
        else []
      let allContext := context.getD [] ++ retrievedDocs
      let messages : List ConversationMessage :=
        [⟨"system", systemPrompt, none⟩] ++ recentHistory ++
        (if allContext ≠ [] then
          [⟨"system", "Relevant context:\n" ++ String.intercalate "\n\n" allContext, none⟩]
        else []) ++
        [⟨"user", message, none⟩]
      match llm with
      | .error e => .serverError e
      | .ok response =>
        let updatedHistory := recentHistory ++
          [⟨"user", message, some (.str iso)⟩,
           ⟨"assistant", response, some (.str iso)⟩]
        let persisted := smartTrimConversationHistory updatedHistory 20 24 now
        .success response messages persisted

/-!
## controllers/chatController.ts — streaming chat, generation phase
-/

/-- One server-sent event written to the response stream. -/
inductive StreamEvent where
  | chunk (text : String)
  | done
  | error (message : String)
deriving DecidableEq, Repr

/-- Observable outcome of the `chatStream` generation phase: the events
written to the (already open) SSE channel, and the transcript written to the
profile row, if any. -/
structure StreamOutcome where
  events : List StreamEvent
  persisted : Option (List ConversationMessage)
deriving DecidableEq, Repr

/-- The generation/commit phase of `chatStream` from
controllers/chatController.ts (after validation, profile load and prompt
assembly; debug mode off).  The LLM stream is modelled by the `chunks` it
yielded before either completing (`streamError = none`) or throwing
(`streamError = some e`).  Each chunk is forwarded as a `chunk` event and
accumulated into `fullResponse`; on completion a `done` event is written and
the updated, trimmed history is persisted; on a stream error the catch block
writes an `error` event on the same channel and the history update is never
reached. -/
def chatStreamGenerate (recentHistory : List ConversationMessage)
    (message : String) (chunks : List String) (streamError : Option String)
    (now : Int) (iso : String) : StreamOutcome :=
  let emitted := chunks.map StreamEvent.chunk
  match streamError with
  | some e => ⟨emitted ++ [.error e], none⟩
  | none =>
    let fullResponse := String.join chunks
    let updatedHistory := recentHistory ++
      [⟨"user", message, some (.str iso)⟩,
       ⟨"assistant", fullResponse, some (.str iso)⟩]
    ⟨emitted ++ [.done], some (smartTrimConversationHistory updatedHistory 20 24 now)⟩

/-- Outcome of one full `chatStream` request: a 400 validation response
(sent before the SSE channel opens), or the opened SSE stream with the
prompt that was sent to the LLM, the events written to the channel, and the
transcript written to the profile row, if any. -/
inductive ChatStreamResult where
  | validationFailed (errors : List ValidationError)
  | streamed (prompt : List ConversationMessage) (events : List StreamEvent)
      (persisted : Option (List ConversationMessage))
deriving DecidableEq, Repr

/-- The transcript written by the streaming request, if any. -/
def ChatStreamResult.persistedHistory :
    ChatStreamResult → Option (List ConversationMessage)
  | .streamed _ _ p => p
  | .validationFailed _ => none

/-- `chatStream` from controllers/chatController.ts (debug mode off),
end to end: the same validation, profile conditioning, `slice(-10)` history
window, retrieval-with-catch and prompt assembly as `chat`, followed by the
streaming generation/commit phase `chatStreamGenerate`.  The LLM stream is
modelled by the `chunks` it yielded before either completing
(`streamError = none`) or throwing (`streamError = some e`); `now` is
`Date.now()` and `iso` the `new Date().toISOString()` string stamped on the
two new turns. -/
def chatStream (detail : UserDetail) (message : String)
    (context : Option (List String)) (autoRetrieve : Bool)
    (retrieval : Except String (List SearchResult))
    (chunks : List String) (streamError : Option String)
    (now : Int) (iso : String) : ChatStreamResult :=
  let messageErrors := validateMessage message
  if messageErrors ≠ [] then .validationFailed messageErrors
  else
    let contextErrors := validateContextArray context
    if contextErrors ≠ [] then .validationFailed contextErrors
    else
      let systemPrompt := buildSystemPrompt detail
      let history := conditionHistory detail.conversationHistory now
      let recentHistory := sliceLast 10 history
      let retrievedDocs : List String :=
        if autoRetrieve then
          match retrieval with
          | .ok results => results.map fun r => r.text
          | .error _ => []
        else []
      let allContext := context.getD [] ++ retrievedDocs
      let messages : List ConversationMessage :=
        [⟨"system", systemPrompt, none⟩] ++ recentHistory ++
        (if allContext ≠ [] then
          [⟨"system", "Relevant context:\n" ++ String.intercalate "\n\n" allContext, none⟩]
        else []) ++
        [⟨"user", message, none⟩]
      let outcome := chatStreamGenerate recentHistory message chunks streamError now iso
      .streamed messages outcome.events outcome.persisted

/-!
## Concrete inputs used by counterexamples and bug evaluations
-/

/-- A fixed `Date.now()` instant used by concrete scenarios. -/
def nowB : Int := 1760140800000

/-- The matching `new Date().toISOString()` string. -/
def isoB : String := "2025-10-11T00:00:00.000Z"

/-- An eleven-message loaded transcript of small, recent, numerically
timestamped user turns `m0 … m10`. -/
def h11 : List ConversationMessage :=
  (List.range 11).map fun i => ⟨"user", "m" ++ toString i, some (.num nowB)⟩

/-- An assistant turn with empty content: character cost 9 under the
implementation accounting, token cost `ceil(9/4) = 3` under the specified
accounting. -/
def asstMsg : ConversationMessage := ⟨"assistant", "", none⟩

/-- 2667 empty assistant turns: 24003 accumulated characters (within the
32000-character limit) but 8001 accumulated estimated tokens (beyond the
8000-token budget). -/
def manyAsst : List ConversationMessage := List.replicate 2667 asstMsg

/-- A cache of capacity 2 holding the key of `"a"`. -/
def cacheA : EmbeddingCache := (EmbeddingCache.empty 2 86400000).set "a" [1] 0

/-- A cache of capacity 2 holding the keys of `"a"` and `"b"`, in that
insertion order. -/
def cacheAB : EmbeddingCache := cacheA.set "b" [2] 0

/-- Stub embedding backend used by concrete retrieval scenarios. -/
def ebStub : String → List Int := fun _ => [1, 2, 3]

/-- Stub vector store used by concrete retrieval scenarios. -/
def svStub : List Int → Nat → Option QdrantFilter → List ScoredPoint :=
  fun _ _ _ => []

/-!
## Helper lemmas: character accounting of `trimConversationHistory`
-/

theorem charSum_nil : charSum [] = 0 := rfl

theorem charSum_cons (m : ConversationMessage) (l : List ConversationMessage) :
    charSum (m :: l) = msgChars m + charSum l := by
  simp [charSum]

theorem charSum_reverse (l : List ConversationMessage) :
    charSum l.reverse = charSum l := by
  simp [charSum, List.map_reverse, List.sum_reverse]

/-- Full characterisation of the `trimConversationHistory` loop: starting
from an in-budget accumulation, it accepts some initial segment of the
remaining reversed history, stays within `MAX_HISTORY_CHARS`, and stops
exactly at the first message whose addition would exceed the budget. -/
theorem trimCHgo_spec (rev : List ConversationMessage) :
    ∀ (total : Nat) (acc : List ConversationMessage),
      total ≤ MAX_HISTORY_CHARS →
      ∃ j, j ≤ rev.length ∧
        trimCHgo rev total acc = (rev.take j).reverse ++ acc ∧
        total + charSum (rev.take j) ≤ MAX_HISTORY_CHARS ∧
        (j < rev.length → MAX_HISTORY_CHARS < total + charSum (rev.take (j + 1))) := by
  induction rev with
  | nil =>
    intro total acc h
    exact ⟨0, by simp, by simp [trimCHgo], by simpa [charSum] using h, by simp⟩
  | cons m rest ih =>
    intro total acc h
    by_cases hc : MAX_HISTORY_CHARS < total + msgChars m
    · refine ⟨0, by simp, ?_, by simpa [charSum] using h, ?_⟩
      · simp only [trimCHgo]
        rw [if_pos (by simpa [msgChars] using hc)]
        simp
      · intro _
        simpa [charSum_cons, msgChars] using hc
    · push_neg at hc
      obtain ⟨j, hj, heq, hbud, hstop⟩ := ih (total + msgChars m) (m :: acc) hc
      refine ⟨j + 1, by simpa using Nat.succ_le_succ hj, ?_, ?_, ?_⟩
      · simp only [trimCHgo]
        rw [if_neg (by simpa [msgChars] using not_lt.mpr hc)]
        rw [show (m.content.length + m.role.length) = msgChars m from rfl]
        rw [heq]
        simp [List.take_succ_cons, List.reverse_cons, List.append_assoc]
      · simpa [List.take_succ_cons, charSum_cons, Nat.add_assoc] using hbud
      · intro hlt
        have hlt2 : j < rest.length := by simpa using Nat.lt_of_succ_lt_succ hlt
        have := hstop hlt2
        simpa [List.take_succ_cons, charSum_cons, Nat.add_assoc] using this

/-- If the whole remaining reversed history fits in the budget, the loop
accepts all of it. -/
theorem trimCHgo_all (rev : List ConversationMessage) :
    ∀ (total : Nat) (acc : List ConversationMessage),
      total + charSum rev ≤ MAX_HISTORY_CHARS →
      trimCHgo rev total acc = rev.reverse ++ acc := by
  induction rev with
  | nil => intro total acc _; simp [trimCHgo]
  | cons m rest ih =>
    intro total acc h
    rw [charSum_cons] at h
    have hfit : ¬ MAX_HISTORY_CHARS < total + (m.content.length + m.role.length) := by
      rw [show (m.content.length + m.role.length) = msgChars m from rfl]
      omega
    simp only [trimCHgo]
    rw [if_neg hfit]
    rw [show (m.content.length + m.role.length) = msgChars m from rfl]
    rw [ih (total + msgChars m) (m :: acc) (by omega)]
    simp [List.reverse_cons, List.append_assoc]

/-- `trimConversationHistory` in closed form: the kept transcript is the
reversal of an initial segment of the reversed input, within budget, with a
greedy stop. -/
theorem trimCH_closed (h : List ConversationMessage) :
    ∃ j, j ≤ h.length ∧
      trimConversationHistory h = (h.reverse.take j).reverse ∧
      charSum (trimConversationHistory h) ≤ MAX_HISTORY_CHARS ∧
      (j < h.length → MAX_HISTORY_CHARS < charSum (h.reverse.take (j + 1))) := by
  by_cases h0 : h.length = 0
  · have : h = [] := List.length_eq_zero.mp h0
    subst this
    exact ⟨0, by simp, by simp [trimConversationHistory], by simp [trimConversationHistory, charSum], by simp⟩
  · obtain ⟨j, hj, heq, hbud, hstop⟩ :=
      trimCHgo_spec h.reverse 0 [] (Nat.zero_le _)
    have heq2 : trimConversationHistory h = (h.reverse.take j).reverse := by
      rw [trimConversationHistory, if_neg h0, heq, List.append_nil]
    refine ⟨j, by simpa using hj, heq2, ?_, ?_⟩
    · rw [heq2, charSum_reverse]
      simpa using hbud
    · intro hlt
      have := hstop (by simpa using hlt)
      simpa using this

/-- The trimmed transcript is a suffix of the input. -/
theorem trimCH_suffix (h : List ConversationMessage) :
    ∃ t, t ++ trimConversationHistory h = h := by
  obtain ⟨j, _, heq, _, _⟩ := trimCH_closed h
  refine ⟨(h.reverse.drop j).reverse, ?_⟩
  rw [heq, ← List.reverse_append, List.take_append_drop, List.reverse_reverse]

/-- The trimmed transcript fits the character budget. -/
theorem trimCH_charSum_le (h : List ConversationMessage) :
    charSum (trimConversationHistory h) ≤ MAX_HISTORY_CHARS := by
  obtain ⟨j, _, _, hbud, _⟩ := trimCH_closed h
  exact hbud

/-- An in-budget transcript passes `trimConversationHistory` unchanged. -/
theorem trimCH_eq_self (h : List ConversationMessage)
    (hs : charSum h ≤ MAX_HISTORY_CHARS) : trimConversationHistory h = h := by
  by_cases h0 : h.length = 0
  · have : h = [] := List.length_eq_zero.mp h0
    subst this
    simp [trimConversationHistory]
  · rw [trimConversationHistory, if_neg h0,
      trimCHgo_all h.reverse 0 [] (by rw [charSum_reverse]; omega)]
    simp

/-!
## Helper lemmas: count cap, age filter, smart trim
-/

theorem trimToLastN_suffix (l : List ConversationMessage) (n : Nat) :
    ∃ t, t ++ trimToLastN l n = l := by
  unfold trimToLastN
  split
  · exact ⟨[], rfl⟩
  · split
    · exact ⟨[], rfl⟩
    · exact ⟨l.take (l.length - n), List.take_append_drop _ _⟩

theorem trimToLastN_length_le (l : List ConversationMessage) (n : Nat)
    (hn : 0 < n) : (trimToLastN l n).length ≤ n := by
  unfold trimToLastN
  split
  · omega
  · rw [if_neg (by omega), List.length_drop]
    omega

theorem trimToLastN_eq_self (l : List ConversationMessage) (n : Nat)
    (h : l.length ≤ n) : trimToLastN l n = l := by
  simp [trimToLastN, h]

theorem trimByAge_eq_filter (l : List ConversationMessage) (hk now : Int) :
    trimByAge l hk now = l.filter fun msg =>
      if jsFalsy msg.timestamp then true
      else
        match msg.timestamp with
        | none => true
        | some v => jsGtNum v (now - hk * 60 * 60 * 1000) := rfl

/-- The age filter keeps everything it has already kept. -/
theorem trimByAge_self_of_subset (r l : List ConversationMessage)
    (hk now : Int) (hsub : ∀ x ∈ r, x ∈ trimByAge l hk now) :
    trimByAge r hk now = r := by
  rw [trimByAge_eq_filter]
  rw [List.filter_eq_self]
  intro a ha
  have := hsub a ha
  rw [trimByAge_eq_filter] at this
  exact (List.mem_filter.mp this).2

/-- The result of a suffix decomposition is contained in the original. -/
theorem mem_of_suffix_decomp (r l : List ConversationMessage)
    (h : ∃ t, t ++ r = l) : ∀ x ∈ r, x ∈ l := by
  obtain ⟨t, ht⟩ := h
  intro x hx
  rw [← ht]
  exact List.mem_append_right t hx

theorem suffix_length_le (r l : List ConversationMessage)
    (h : ∃ t, t ++ r = l) : r.length ≤ l.length := by
  obtain ⟨t, ht⟩ := h
  rw [← ht, List.length_append]
  omega

/-- `smartTrimConversationHistory` only deletes messages: its result is a
sublist of its input. -/
theorem smartTrim_sublist (l : List ConversationMessage)
    (maxMessages : Nat) (hk now : Int) :
    (smartTrimConversationHistory l maxMessages hk now).Sublist l := by
  unfold smartTrimConversationHistory
  have s1 : (trimByAge l hk now).Sublist l := by
    rw [trimByAge_eq_filter]; exact List.filter_sublist _
  have s2 : (trimToLastN (trimByAge l hk now) maxMessages).Sublist
      (trimByAge l hk now) := by
    obtain ⟨t, ht⟩ := trimToLastN_suffix (trimByAge l hk now) maxMessages
    exact (List.IsSuffix.sublist ⟨t, ht⟩)
  have s3 : (trimConversationHistory
      (trimToLastN (trimByAge l hk now) maxMessages)).Sublist
      (trimToLastN (trimByAge l hk now) maxMessages) := by
    obtain ⟨t, ht⟩ := trimCH_suffix (trimToLastN (trimByAge l hk now) maxMessages)
    exact (List.IsSuffix.sublist ⟨t, ht⟩)
  exact (s3.trans s2).trans s1

/-- C9 (claim): at a fixed instant `now` and with the default parameters,
the full trimming pipeline is idempotent:
`smartTrim (smartTrim T) = smartTrim T`. -/
theorem smartTrimConversationHistory_idempotent
    (h : List ConversationMessage) (now : Int) :
    smartTrimConversationHistory (smartTrimConversationHistory h 20 24 now) 20 24 now
      = smartTrimConversationHistory h 20 24 now := by
  have hmem : ∀ x ∈ smartTrimConversationHistory h 20 24 now,
      x ∈ trimByAge h 24 now := by
    intro x hx
    unfold smartTrimConversationHistory at hx
    have h1 := mem_of_suffix_decomp _ _
      (trimCH_suffix (trimToLastN (trimByAge h 24 now) 20)) x hx
    exact mem_of_suffix_decomp _ _ (trimToLastN_suffix (trimByAge h 24 now) 20) x h1
  have e1 : trimByAge (smartTrimConversationHistory h 20 24 now) 24 now
      = smartTrimConversationHistory h 20 24 now :=
    trimByAge_self_of_subset _ h 24 now hmem
  have hlen : (smartTrimConversationHistory h 20 24 now).length ≤ 20 := by
    unfold smartTrimConversationHistory
    exact le_trans
      (suffix_length_le _ _ (trimCH_suffix (trimToLastN (trimByAge h 24 now) 20)))
      (trimToLastN_length_le (trimByAge h 24 now) 20 (by omega))
  have e2 : trimToLastN (smartTrimConversationHistory h 20 24 now) 20
      = smartTrimConversationHistory h 20 24 now :=
    trimToLastN_eq_self _ _ hlen
  have e3 : trimConversationHistory (smartTrimConversationHistory h 20 24 now)
      = smartTrimConversationHistory h 20 24 now := by
    apply trimCH_eq_self
    unfold smartTrimConversationHistory
    exact trimCH_charSum_le _
  calc smartTrimConversationHistory (smartTrimConversationHistory h 20 24 now) 20 24 now
      = trimConversationHistory (trimToLastN (trimByAge
          (smartTrimConversationHistory h 20 24 now) 24 now) 20) := rfl
    _ = smartTrimConversationHistory h 20 24 now := by rw [e1, e2, e3]

/-!
## C3 — token-budget cap of the third trimming stage
-/

/-- C3 (amended): the third trimming stage retains exactly the contiguous
most-recent suffix of turns whose accumulated *raw character* cost
(`content.length + role.length` per turn) does not exceed
`MAX_HISTORY_CHARS` = 32000, stopping at the first older turn whose addition
would exceed the limit and never reinserting a skipped turn: the result is a
suffix of the input, it fits the character limit, and the turn immediately
older than the retained suffix (when one exists) would overflow it. -/
theorem trimConversationHistory_char_budget_spec (h : List ConversationMessage) :
    (∃ t, t ++ trimConversationHistory h = h) ∧
    charSum (trimConversationHistory h) ≤ MAX_HISTORY_CHARS ∧
    ∀ pre m, h = pre ++ m :: trimConversationHistory h →
      MAX_HISTORY_CHARS < msgChars m + charSum (trimConversationHistory h) := by
  refine ⟨trimCH_suffix h, trimCH_charSum_le h, ?_⟩
  obtain ⟨j, hj, heq, hbud, hstop⟩ := trimCH_closed h
  intro pre m hdecomp
  have hrlen : (trimConversationHistory h).length = j := by
    rw [heq]
    simp only [List.length_reverse, List.length_take]
    omega
  have hlen : h.length = pre.length + ((trimConversationHistory h).length + 1) := by
    conv_lhs => rw [hdecomp]
    simp [List.length_append]
  have hjlt : j < h.length := by omega
  have hstop2 := hstop hjlt
  have hrev : h.reverse = (m :: trimConversationHistory h).reverse ++ pre.reverse := by
    conv_lhs => rw [hdecomp]
    simp [List.reverse_append]
  have hlen2 : ((m :: trimConversationHistory h).reverse).length = j + 1 := by
    simp [hrlen]
  have htake : h.reverse.take (j + 1) = (m :: trimConversationHistory h).reverse := by
    rw [hrev, ← hlen2, List.take_left]
  rw [htake, charSum_reverse, charSum_cons] at hstop2
  exact hstop2

/-- C3 (counterexample to the claim as stated): on 2667 empty assistant
turns the implementation retains all turns (24003 accumulated characters,
within its 32000-character limit), yet their accumulated estimated-token
cost `estimate(role) + estimate(content)` is 8001, exceeding the claimed
`maxHistoryTokens = 8000` budget — the raw-character accounting does not
coincide with the per-turn ceiling-based token accounting. -/
theorem trimConversationHistory_token_budget_cex :
    (trimConversationHistory manyAsst).length = 2667 ∧
    MAX_HISTORY_TOKENS <
      (manyAsst.map fun m => estimateTokens m.role + estimateTokens m.content).sum := by
  have hchar : charSum manyAsst = 24003 := by
    show charSum (List.replicate 2667 asstMsg) = 24003
    simp only [charSum, List.map_replicate, List.sum_replicate]
    have h9 : msgChars asstMsg = 9 := rfl
    rw [h9]
    norm_num
  constructor
  · rw [trimCH_eq_self manyAsst (by rw [hchar]; norm_num [MAX_HISTORY_CHARS,
      MAX_HISTORY_TOKENS, CHARS_PER_TOKEN])]
    show (List.replicate 2667 asstMsg).length = 2667
    rw [List.length_replicate]
  · have hsum : (manyAsst.map fun m =>
        estimateTokens m.role + estimateTokens m.content).sum = 8001 := by
      show ((List.replicate 2667 asstMsg).map fun m =>
        estimateTokens m.role + estimateTokens m.content).sum = 8001
      rw [List.map_replicate, List.sum_replicate]
      have h3 : estimateTokens asstMsg.role + estimateTokens asstMsg.content = 3 := rfl
      rw [h3]
      norm_num
    rw [hsum]
    norm_num [MAX_HISTORY_TOKENS]

/-- Closed instantiation of `trimConversationHistory_char_budget_spec`. -/
theorem trimConversationHistory_char_budget_spec_witness :
    charSum (trimConversationHistory manyAsst) ≤ MAX_HISTORY_CHARS :=
  (trimConversationHistory_char_budget_spec manyAsst).2.1

/-!
## C1, C2, C6, C7, C8 — chat orchestration
-/

/-- C1 (bug evaluation): end-to-end scenario B.  For a user with an empty
loaded transcript, `chat` with message `"Hello"`, an empty context array,
`auto_retrieve = false` and an LLM returning `"Hi there"` delivers the
response but persists the *empty* transcript: both new turns carry
ISO-string timestamps, and `trimByAge` compares that string against a
numeric cutoff (NaN under JavaScript coercion), so the age filter drops
them before the write.  In particular the persisted transcript does not end
with the two new turns the specification requires. -/
theorem chat_scenarioB_persists_empty_transcript :
    (chat ⟨[], [], []⟩ "Hello" (some []) false (.error "unused") (.ok "Hi there")
      nowB isoB).persistedHistory = some [] ∧
    (chat ⟨[], [], []⟩ "Hello" (some []) false (.error "unused") (.ok "Hi there")
      nowB isoB).persistedHistory ≠
      some [⟨"user", "Hello", some (.str isoB)⟩,
            ⟨"assistant", "Hi there", some (.str isoB)⟩] := by
  decide

/-- C2 (counterexample to the claim as stated): with a loaded transcript of
eleven small, recent, numerically timestamped turns `m0 … m10`, the turn
`m0` is kept by `smartTrimConversationHistory` applied to the full loaded
transcript plus the two new turns (what the claim says the commit
persists), but the commit actually persists only the last-10 suffix
`m1 … m10` (the code appends the new turns to `history.slice(-10)`), so
`m0` is silently dropped. -/
theorem chat_commit_truncates_loaded_history_cex :
    (⟨"user", "m0", some (.num nowB)⟩ : ConversationMessage) ∈
      smartTrimConversationHistory
        (h11 ++ [⟨"user", "Hello", some (.str isoB)⟩,
                 ⟨"assistant", "resp", some (.str isoB)⟩]) 20 24 nowB ∧
    (chat ⟨[], [], h11⟩ "Hello" (some []) false (.error "unused") (.ok "resp")
      nowB isoB).persistedHistory = some (h11.drop 1) ∧
    (⟨"user", "m0", some (.num nowB)⟩ : ConversationMessage) ∉ h11.drop 1 := by
  decide

/-- C2 (amended): on every successfully validated and generated request —
regardless of whether generation was streamed or whole-response — the commit
appends the two new turns `{user, message, iso}` and
`{assistant, fullResponse, iso}` to the *last-10 suffix* (`slice(-10)`) of
the cleanup-conditioned loaded transcript — not to the full loaded
transcript — then applies `smartTrimConversationHistory` and persists the
result as the single write of the request; consequently the persisted
transcript of either mode is a sublist of that last-10 suffix extended by
the two new turns, and loaded turns before the last ten never survive the
commit. -/
theorem chat_commit_appends_to_last_ten (detail : UserDetail) (message : String)
    (context : Option (List String)) (autoRetrieve : Bool)
    (retrieval : Except String (List SearchResult)) (response : String)
    (chunks : List String) (now : Int) (iso : String)
    (hm : validateMessage message = [])
    (hc : validateContextArray context = []) :
    ((chat detail message context autoRetrieve retrieval (.ok response) now iso).persistedHistory
      = some (smartTrimConversationHistory
          (sliceLast 10 (conditionHistory detail.conversationHistory now) ++
           [⟨"user", message, some (.str iso)⟩,
            ⟨"assistant", response, some (.str iso)⟩]) 20 24 now)) ∧
    ((chatStream detail message context autoRetrieve retrieval chunks none now iso).persistedHistory
      = some (smartTrimConversationHistory
          (sliceLast 10 (conditionHistory detail.conversationHistory now) ++
           [⟨"user", message, some (.str iso)⟩,
            ⟨"assistant", String.join chunks, some (.str iso)⟩]) 20 24 now)) ∧
    (smartTrimConversationHistory
        (sliceLast 10 (conditionHistory detail.conversationHistory now) ++
         [⟨"user", message, some (.str iso)⟩,
          ⟨"assistant", response, some (.str iso)⟩]) 20 24 now).Sublist
      (sliceLast 10 (conditionHistory detail.conversationHistory now) ++
       [⟨"user", message, some (.str iso)⟩,
        ⟨"assistant", response, some (.str iso)⟩]) ∧
    (smartTrimConversationHistory
        (sliceLast 10 (conditionHistory detail.conversationHistory now) ++
         [⟨"user", message, some (.str iso)⟩,
          ⟨"assistant", String.join chunks, some (.str iso)⟩]) 20 24 now).Sublist
      (sliceLast 10 (conditionHistory detail.conversationHistory now) ++
       [⟨"user", message, some (.str iso)⟩,
        ⟨"assistant", String.join chunks, some (.str iso)⟩]) := by
  refine ⟨?_, ?_, ?_, ?_⟩
  · simp [chat, hm, hc, ChatResult.persistedHistory]
  · simp [chatStream, hm, hc, chatStreamGenerate, ChatStreamResult.persistedHistory]
  · exact smartTrim_sublist _ 20 24 now
  · exact smartTrim_sublist _ 20 24 now

/-- Closed instantiation of `chat_commit_appends_to_last_ten`. -/
theorem chat_commit_appends_to_last_ten_witness :
    ((chat ⟨[], [], []⟩ "Hello" (some []) false (.error "unused") (.ok "Hi")
        nowB isoB).persistedHistory
      = some (smartTrimConversationHistory
          (sliceLast 10 (conditionHistory [] nowB) ++
           [⟨"user", "Hello", some (.str isoB)⟩,
            ⟨"assistant", "Hi", some (.str isoB)⟩]) 20 24 nowB)) ∧
    ((chatStream ⟨[], [], []⟩ "Hello" (some []) false (.error "unused")
        ["Hi", " there"] none nowB isoB).persistedHistory
      = some (smartTrimConversationHistory
          (sliceLast 10 (conditionHistory [] nowB) ++
           [⟨"user", "Hello", some (.str isoB)⟩,
            ⟨"assistant", String.join ["Hi", " there"], some (.str isoB)⟩]) 20 24 nowB)) ∧
    (smartTrimConversationHistory
        (sliceLast 10 (conditionHistory [] nowB) ++
         [⟨"user", "Hello", some (.str isoB)⟩,
          ⟨"assistant", "Hi", some (.str isoB)⟩]) 20 24 nowB).Sublist
      (sliceLast 10 (conditionHistory [] nowB) ++
       [⟨"user", "Hello", some (.str isoB)⟩,
        ⟨"assistant", "Hi", some (.str isoB)⟩]) ∧
    (smartTrimConversationHistory
        (sliceLast 10 (conditionHistory [] nowB) ++
         [⟨"user", "Hello", some (.str isoB)⟩,
          ⟨"assistant", String.join ["Hi", " there"], some (.str isoB)⟩]) 20 24 nowB).Sublist
      (sliceLast 10 (conditionHistory [] nowB) ++
       [⟨"user", "Hello", some (.str isoB)⟩,
        ⟨"assistant", String.join ["Hi", " there"], some (.str isoB)⟩]) :=
  chat_commit_appends_to_last_ten ⟨[], [], []⟩ "Hello" (some []) false
    (.error "unused") "Hi" ["Hi", " there"] nowB isoB (by decide) (by decide)

/-- C6 (claim): for every chat request with `auto_retrieve` enabled, a
failing retrieval (`qdrant.searchByUser` throwing) behaves exactly like a
retrieval that returned no documents: the request is not aborted, prompt
assembly and generation continue, and no request error surfaces from the
retrieval failure. -/
theorem chat_retrieval_error_degrades_to_empty (detail : UserDetail)
    (message : String) (context : Option (List String)) (e : String)
    (llm : Except String String) (now : Int) (iso : String) :
    chat detail message context true (.error e) llm now iso =
      chat detail message context true (.ok []) llm now iso := rfl

/-- C7 (bug evaluation): a request carrying a perfectly valid message but
omitting the optional `context` array — exactly the request the repository's
own `test-api.js` sends — fails validation with
`{field: "context", message: "context must be an array"}`, because
`validateContextArray(undefined)` fails the `Array.isArray` guard. -/
theorem chat_omitted_context_fails_validation :
    validateMessage "Hello! Can you tell me a short joke about programming?" = [] ∧
    chat ⟨[], [], []⟩ "Hello! Can you tell me a short joke about programming?"
        none true (.error "unused") (.ok "joke") nowB isoB
      = .validationFailed [⟨"context", "context must be an array"⟩] := by
  decide

/-- C8 (claim): when the LLM backend fails mid-generation in streaming mode,
after zero or more chunks have been flushed, the catch block writes a
terminal `error` event on the same already-open SSE channel (the event list
of the one response stream is the flushed chunks followed by the error
event — no differently shaped response), and no transcript update is
persisted. -/
theorem chatStream_error_event_and_no_persist
    (recentHistory : List ConversationMessage) (message : String)
    (chunks : List String) (e : String) (now : Int) (iso : String) :
    (chatStreamGenerate recentHistory message chunks (some e) now iso).persisted
        = none ∧
    (chatStreamGenerate recentHistory message chunks (some e) now iso).events
        = chunks.map StreamEvent.chunk ++ [StreamEvent.error e] :=
  ⟨rfl, rfl⟩

/-!
## Helper lemmas: the insertion-ordered map
-/

theorem mapFind_isSome_iff (l : List (String × CachedEmbedding)) (k : String) :
    (mapFind l k).isSome = true ↔ k ∈ l.map Prod.fst := by
  induction l with
  | nil => simp [mapFind]
  | cons e rest ih =>
    by_cases h : e.1 = k
    · simp [mapFind, h]
    · simp only [mapFind, if_neg h, List.map_cons, List.mem_cons, ih]
      constructor
      · exact fun hk => Or.inr hk
      · rintro (hk | hk)
        · exact absurd hk.symm h
        · exact hk

theorem mem_keys_mapSet (l : List (String × CachedEmbedding)) (k : String)
    (v : CachedEmbedding) (a : String) :
    a ∈ (mapSet l k v).map Prod.fst ↔ a = k ∨ a ∈ l.map Prod.fst := by
  induction l with
  | nil => simp [mapSet]
  | cons e rest ih =>
    by_cases h : e.1 = k
    · rw [mapSet, if_pos h]
      simp only [List.map_cons, List.mem_cons]
      constructor
      · rintro (h1 | h1)
        · exact Or.inl h1
        · exact Or.inr (Or.inr h1)
      · rintro (h1 | h1 | h1)
        · exact Or.inl h1
        · exact Or.inl (h1.trans h)
        · exact Or.inr h1
    · rw [mapSet, if_neg h]
      simp only [List.map_cons, List.mem_cons, ih]
      tauto

theorem mapDelete_length_le (l : List (String × CachedEmbedding)) (k : String) :
    (mapDelete l k).length ≤ l.length := by
  induction l with
  | nil => simp [mapDelete]
  | cons e rest ih =>
    by_cases h : e.1 = k
    · simp [mapDelete, h]
    · simp only [mapDelete, if_neg h, List.length_cons]
      omega

theorem mapDelete_mem (l : List (String × CachedEmbedding)) (k : String)
    (p : String × CachedEmbedding) (hp : p ∈ mapDelete l k) : p ∈ l := by
  induction l with
  | nil => simp [mapDelete] at hp
  | cons e rest ih =>
    by_cases h : e.1 = k
    · rw [mapDelete, if_pos h] at hp
      exact List.mem_cons_of_mem e hp
    · rw [mapDelete, if_neg h] at hp
      rcases List.mem_cons.mp hp with h1 | h1
      · exact h1 ▸ List.mem_cons_self e rest
      · exact List.mem_cons_of_mem e (ih h1)

theorem mapSet_length_le (l : List (String × CachedEmbedding)) (k : String)
    (v : CachedEmbedding) : (mapSet l k v).length ≤ l.length + 1 := by
  induction l with
  | nil => simp [mapSet]
  | cons e rest ih =>
    by_cases h : e.1 = k
    · simp [mapSet, h]
    · simp only [mapSet, if_neg h, List.length_cons]
      omega

theorem mapSet_mem (l : List (String × CachedEmbedding)) (k : String)
    (v : CachedEmbedding) (p : String × CachedEmbedding)
    (hp : p ∈ mapSet l k v) : p = (k, v) ∨ p ∈ l := by
  induction l with
  | nil => simpa [mapSet] using hp
  | cons e rest ih =>
    by_cases h : e.1 = k
    · rw [mapSet, if_pos h] at hp
      rcases List.mem_cons.mp hp with h1 | h1
      · exact Or.inl h1
      · exact Or.inr (List.mem_cons_of_mem e h1)
    · rw [mapSet, if_neg h] at hp
      rcases List.mem_cons.mp hp with h1 | h1
      · exact Or.inr (h1 ▸ List.mem_cons_self e rest)
      · rcases ih h1 with h2 | h2
        · exact Or.inl h2
        · exact Or.inr (List.mem_cons_of_mem e h2)

theorem getKey_length (t : String) :
    4 ≤ (EmbeddingCache.getKey t).length := by
  unfold EmbeddingCache.getKey
  rw [String.length_append, String.length_append, String.length_append]
  have h4 : ("emb_" : String).length = 4 := rfl
  omega

theorem getKey_ne_empty (t : String) : EmbeddingCache.getKey t ≠ "" := by
  intro h
  have := getKey_length t
  rw [h] at this
  simp at this

/-- At or beyond capacity, `set` deletes the first (oldest-inserted) entry
and then stores the new one. -/
theorem set_entries_at_capacity (st : EmbeddingCache) (text : String)
    (v : List Int) (now : Int) (hd : String × CachedEmbedding)
    (tl : List (String × CachedEmbedding)) (hent : st.entries = hd :: tl)
    (hcap : st.maxSize ≤ st.entries.length) (hne : hd.1 ≠ "") :
    (st.set text v now).entries
      = mapSet tl (EmbeddingCache.getKey text) ⟨text, v, now⟩ := by
  simp only [EmbeddingCache.set, hent]
  rw [if_pos (by rw [hent] at hcap; exact hcap)]
  simp only [List.head?]
  rw [if_pos hne, mapDelete, if_pos rfl]

/-- Below capacity, `set` stores the entry without deleting anything. -/
theorem set_entries_below_capacity (st : EmbeddingCache) (text : String)
    (v : List Int) (now : Int) (hcap : st.entries.length < st.maxSize) :
    (st.set text v now).entries
      = mapSet st.entries (EmbeddingCache.getKey text) ⟨text, v, now⟩ := by
  simp only [EmbeddingCache.set]
  rw [if_neg (by omega)]

/-- C4 (amended): `EmbeddingCache.set(text, vector)` evicts the
oldest-inserted entry exactly when the cache is at (or beyond) `maxSize` —
regardless of whether `text`'s key is already present.  Stated as survival:
for a cache with oldest key `k0` (all keys nonempty and distinct), after
`set text vector` the key `k0` is still present if and only if the cache was
below capacity or `k0` is itself the key being written.  In particular a set
whose key is already present at capacity still evicts the oldest entry. -/
theorem embeddingCache_set_oldest_key_survives_iff
    (st : EmbeddingCache) (text : String) (v : List Int) (now : Int)
    (k0 : String) (e0 : CachedEmbedding)
    (hhead : st.entries.head? = some (k0, e0))
    (hkeys : ∀ p ∈ st.entries, p.1 ≠ "")
    (hnodup : (st.entries.map Prod.fst).Nodup) :
    ((mapFind (st.set text v now).entries k0).isSome = true ↔
      (st.entries.length < st.maxSize ∨ k0 = EmbeddingCache.getKey text)) := by
  rcases hent : st.entries with _ | ⟨hd, tl⟩
  · rw [hent] at hhead
    simp at hhead
  · have hhd : hd = (k0, e0) := by
      rw [hent] at hhead
      simpa using hhead
    subst hhd
    have hk0 : k0 ≠ "" := by
      have := hkeys (k0, e0) (by rw [hent]; exact List.mem_cons_self _ _)
      simpa using this
    have hk0nin : k0 ∉ tl.map Prod.fst := by
      rw [hent] at hnodup
      simp only [List.map_cons, List.nodup_cons] at hnodup
      exact hnodup.1
    have hlen : st.entries.length = ((k0, e0) :: tl).length := by rw [hent]
    by_cases hcap : st.maxSize ≤ st.entries.length
    · rw [set_entries_at_capacity st text v now (k0, e0) tl hent hcap hk0]
      rw [mapFind_isSome_iff, mem_keys_mapSet]
      constructor
      · rintro (h1 | h1)
        · exact Or.inr h1
        · exact absurd h1 hk0nin
      · rintro (h1 | h1)
        · exfalso
          omega
        · exact Or.inl h1
    · rw [set_entries_below_capacity st text v now (by omega)]
      rw [mapFind_isSome_iff, mem_keys_mapSet]
      constructor
      · intro _
        exact Or.inl (by omega)
      · intro _
        right
        rw [hent]
        exact List.mem_map_of_mem Prod.fst (List.mem_cons_self _ _)

/-- Closed instantiation of `embeddingCache_set_oldest_key_survives_iff`: a
capacity-2 cache holding the keys of `"a"` (oldest) and `"b"`; re-setting
`"b"` makes the oldest key survive iff the cache was below capacity or the
oldest key is the key being written — both false here. -/
theorem embeddingCache_set_oldest_key_survives_iff_witness :
    ((mapFind (cacheAB.set "b" [3] 0).entries "emb_97_1").isSome = true ↔
      (cacheAB.entries.length < cacheAB.maxSize ∨
        "emb_97_1" = EmbeddingCache.getKey "b")) :=
  embeddingCache_set_oldest_key_survives_iff cacheAB "b" [3] 0 "emb_97_1"
    ⟨"a", [1], 0⟩ (by decide) (by decide) (by decide)

/-- C4 (counterexample to the claim as stated): a capacity-2 cache holds the
keys of `"a"` and `"b"`; the key of `"b"` is already present, yet
`set("b", v)` at capacity still evicts the oldest entry — afterwards `"a"`
is no longer retrievable, contradicting "a set whose key is already present
at capacity evicts no other entry". -/
theorem embeddingCache_present_key_set_still_evicts_cex :
    (mapFind cacheAB.entries (EmbeddingCache.getKey "b")).isSome = true ∧
    (mapFind cacheAB.entries (EmbeddingCache.getKey "a")).isSome = true ∧
    ((cacheAB.set "b" [3] 0).get "a" 0).1 = none := by
  decide

/-!
## C10 — cache size invariant
-/

/-- `get` either leaves the cache unchanged or purges the expired looked-up
entry. -/
theorem get_snd_cases (c : EmbeddingCache) (t : String) (now : Int) :
    (c.get t now).2 = c ∨
    (c.get t now).2
      = { c with entries := mapDelete c.entries (EmbeddingCache.getKey t) } := by
  simp only [EmbeddingCache.get]
  split
  · exact Or.inl rfl
  · split
    · exact Or.inr rfl
    · exact Or.inl rfl

/-- One cache operation preserves the size bound and the nonempty-key
property, given capacity at least one. -/
theorem applyOp_inv (c : EmbeddingCache) (op : CacheOp)
    (hms : 1 ≤ c.maxSize)
    (h1 : c.entries.length ≤ c.maxSize)
    (h2 : ∀ p ∈ c.entries, p.1 ≠ "") :
    (applyOp c op).maxSize = c.maxSize ∧
    (applyOp c op).entries.length ≤ c.maxSize ∧
    (∀ p ∈ (applyOp c op).entries, p.1 ≠ "") := by
  cases op with
  | get t now =>
    rcases get_snd_cases c t now with he | he
    · rw [show applyOp c (.get t now) = (c.get t now).2 from rfl, he]
      exact ⟨rfl, h1, h2⟩
    · rw [show applyOp c (.get t now) = (c.get t now).2 from rfl, he]
      refine ⟨rfl, le_trans (mapDelete_length_le _ _) h1, ?_⟩
      intro p hp
      exact h2 p (mapDelete_mem _ _ p hp)
  | set t v now =>
    have hmain : ∃ X, (c.set t v now).entries
        = mapSet X (EmbeddingCache.getKey t) ⟨t, v, now⟩ ∧
        X.length + 1 ≤ c.maxSize ∧ (∀ p ∈ X, p ∈ c.entries) := by
      by_cases hcap : c.maxSize ≤ c.entries.length
      · have hlen : c.entries.length = c.maxSize := le_antisymm h1 hcap
        rcases hent : c.entries with _ | ⟨hd, tl⟩
        · rw [hent] at hlen
          simp at hlen
          omega
        · have hne : hd.1 ≠ "" := h2 hd (by rw [hent]; exact List.mem_cons_self _ _)
          refine ⟨tl, set_entries_at_capacity c t v now hd tl hent hcap hne, ?_, ?_⟩
          · have htl : c.entries.length = tl.length + 1 := by rw [hent]; rfl
            omega
          · intro p hp
            exact List.mem_cons_of_mem hd hp
      · exact ⟨c.entries, set_entries_below_capacity c t v now (by omega),
          by omega, fun p hp => hp⟩
    obtain ⟨X, hset, hXlen, hXmem⟩ := hmain
    refine ⟨rfl, ?_, ?_⟩
    · show (c.set t v now).entries.length ≤ c.maxSize
      rw [hset]
      have := mapSet_length_le X (EmbeddingCache.getKey t) ⟨t, v, now⟩
      omega
    · intro p hp
      rw [show (applyOp c (.set t v now)).entries = (c.set t v now).entries from rfl,
        hset] at hp
      rcases mapSet_mem X (EmbeddingCache.getKey t) ⟨t, v, now⟩ p hp with h3 | h3
      · rw [h3]
        exact getKey_ne_empty t
      · exact h2 p (hXmem p h3)
  | clear =>
    exact ⟨rfl, by simp [applyOp, EmbeddingCache.clearAll],
      by simp [applyOp, EmbeddingCache.clearAll]⟩

/-- A sequence of cache operations preserves the invariant. -/
theorem applyOps_inv (ops : List CacheOp) :
    ∀ (c : EmbeddingCache), 1 ≤ c.maxSize →
      c.entries.length ≤ c.maxSize → (∀ p ∈ c.entries, p.1 ≠ "") →
      (applyOps c ops).maxSize = c.maxSize ∧
      (applyOps c ops).entries.length ≤ c.maxSize ∧
      (∀ p ∈ (applyOps c ops).entries, p.1 ≠ "") := by
  induction ops with
  | nil => exact fun c _ h1 h2 => ⟨rfl, h1, h2⟩
  | cons op rest ih =>
    intro c hms h1 h2
    obtain ⟨hm, hl, hk⟩ := applyOp_inv c op hms h1 h2
    obtain ⟨hm2, hl2, hk2⟩ := ih (applyOp c op) (by omega) (by omega) hk
    refine ⟨?_, ?_, ?_⟩
    · show (applyOps (applyOp c op) rest).maxSize = c.maxSize
      omega
    · show (applyOps (applyOp c op) rest).entries.length ≤ c.maxSize
      omega
    · exact hk2

/-- C10 (claim): for an `EmbeddingCache` constructed with `maxSize ≥ 1`,
after any sequence of `get`, `set` and `clear` operations the number of
stored entries never exceeds `maxSize`. -/
theorem embeddingCache_size_invariant (maxSize : Nat) (ttlMs : Int)
    (ops : List CacheOp) (hms : 1 ≤ maxSize) :
    (applyOps (EmbeddingCache.empty maxSize ttlMs) ops).entries.length ≤ maxSize :=
  (applyOps_inv ops (EmbeddingCache.empty maxSize ttlMs) hms
    (by simp [EmbeddingCache.empty]) (by simp [EmbeddingCache.empty])).2.1

/-- Closed instantiation of `embeddingCache_size_invariant`: a capacity-1
cache after two inserts and a lookup. -/
theorem embeddingCache_size_invariant_witness :
    (applyOps (EmbeddingCache.empty 1 86400000)
      [CacheOp.set "a" [1] 0, CacheOp.set "b" [2] 0,
       CacheOp.get "a" 0]).entries.length ≤ 1 :=
  embeddingCache_size_invariant 1 86400000
    [CacheOp.set "a" [1] 0, CacheOp.set "b" [2] 0, CacheOp.get "a" 0]
    (by decide)

/-!
## C5 — retrieval path and the embedding cache
-/

/-- C5 (counterexample to the claim as stated): two consecutive
`searchByUser` calls with the same query make two embedding-backend calls —
the second identical retrieval does not hit any cache — and the first call
leaves the global embedding cache untouched (nothing is stored). -/
theorem searchByUser_repeat_query_calls_backend_twice_cex :
    (searchByUser ebStub svStub "same text" "user1" 3
      ((searchByUser ebStub svStub "same text" "user1" 3
        ⟨EmbeddingCache.empty 1000 86400000, 0⟩).2)).2.embedCalls = 2 ∧
    ((searchByUser ebStub svStub "same text" "user1" 3
      ⟨EmbeddingCache.empty 1000 86400000, 0⟩).2).cache
        = EmbeddingCache.empty 1000 86400000 := by
  decide

/-- C5 (amended): every retrieval embeds the query by calling the
embedding backend directly — exactly one backend call per retrieval, with
no cache lookup, no normalization and no cache store (the embedding cache
is used only by the standalone embed endpoint) — and the vector-store
search is scoped to the filter `{user_id = userId}`, with raw hits mapped
to results carrying the hit id, score, `payload.text` (defaulted to `""`)
and the payload as metadata. -/
theorem searchByUser_bypasses_cache_and_scopes_filter
    (embedBackend : String → List Int)
    (store : List Int → Nat → Option QdrantFilter → List ScoredPoint)
    (query userId : String) (limit : Nat) (st : RetrievalState) :
    searchByUser embedBackend store query userId limit st =
      ((store (embedBackend query) limit (some ⟨[("user_id", userId)]⟩)).map
        (fun r => ⟨r.id, r.score, r.payload.text.getD "", r.payload⟩),
       ⟨st.cache, st.embedCalls + 1⟩) := rfl
